import Mathlib

/-!
Shallow embedding of the verysmallgrad tensor / autodiff library
(src/src/tensor.hpp, src/src/engine.hpp, exercised by src/src/tests.cpp).

Doubles are modelled as rationals: every numeric value exercised by the
claims below is an exactly representable dyadic and every operation applied
to it (addition, multiplication, integer powers of powers of two) is exact
in IEEE-754 binary64, so the rational model computes the same values as the
C++ code.
-/

namespace VSG

/-- Unchecked vector read: the C++ source indexes std::vector without bounds
checks, so in-bounds reads behave identically and out-of-bounds reads are
undefined behaviour; the model totalizes them to 0 (no claim exercises an
out-of-bounds read). -/
def nthQ (l : List ℚ) (i : Nat) : ℚ := l.getD i 0

/-- Tensor::getSize: size = 1; for (s : shape) size *= s. -/
def getSize (shape : List Nat) : Nat := shape.foldl (fun a s => a * s) 1

/-- Tensor::buildStrides, translated literally from the source:
strides.back() = 1; for (i = shape.size()-2; i >= 0; --i)
strides[i] = strides[i+1] * shape[i].  (For the empty shape the source
calls back() on an empty vector, which is undefined behaviour; the model
returns []. No claim exercises the empty shape.) -/
def buildStrides : List Nat → List Nat
  | [] => []
  | [_] => [1]
  | s :: s2 :: rest =>
    let r := buildStrides (s2 :: rest)
    r.headD 1 * s :: r

/-- The stride formula the specification states: strides[d] = product of
shape[d+1:]. Written from the spec's words, to be compared against the
source's buildStrides. -/
def specStrides (shape : List Nat) : List Nat :=
  (List.range shape.length).map (fun d => getSize (shape.drop (d + 1)))

/-- Tensor: _data (flat doubles), _shape, _strides. -/
structure Tensor where
  data : List ℚ
  shape : List Nat
  strides : List Nat
deriving DecidableEq, Repr

instance : Inhabited Tensor := ⟨⟨[], [], []⟩⟩

/-- Tensor::Tensor(data, shape): throws "Data size does not match shape"
when getSize(shape) != data.size(), otherwise stores the data and shape and
the strides built from the shape. -/
def Tensor.mk? (data : List ℚ) (shape : List Nat) : Except String Tensor :=
  if getSize shape = data.length then
    .ok ⟨data, shape, buildStrides shape⟩
  else
    .error "Data size does not match shape"

/-- Tensor::single(value): a tensor holding the one value, shape [1],
strides [1] — exactly what the Tensor(double) constructor stores. -/
def tsingle (x : ℚ) : Tensor := ⟨[x], [1], [1]⟩

/-- Tensor::view(shape): return Tensor(_data, shape) — delegates to the
checking constructor. -/
def Tensor.view (t : Tensor) (shape : List Nat) : Except String Tensor :=
  Tensor.mk? t.data shape

/-- The loop of Tensor::apply: data.push_back(fn(_data[i], i)) for
i = 0 .. size-1, written as structural recursion carrying the next index. -/
def applyIdx (f : ℚ → Nat → ℚ) : List ℚ → Nat → List ℚ
  | [], _ => []
  | d :: rest, i => f d i :: applyIdx f rest (i + 1)

/-- Tensor::apply(fn): new data with fn(_data[i], i) at every position i,
rebuilt as Tensor(data, _shape) (the constructor recomputes the strides
from the unchanged shape). -/
def Tensor.apply (t : Tensor) (f : ℚ → Nat → ℚ) : Tensor :=
  ⟨applyIdx f t.data 0, t.shape, buildStrides t.shape⟩

/-- Tensor::operator+(const Tensor&): elementwise over this's flat buffer,
reading other._data[i] unchecked. -/
def Tensor.add (a b : Tensor) : Tensor :=
  a.apply (fun d i => d + nthQ b.data i)

/-- Tensor::operator*(const Tensor&). -/
def Tensor.mul (a b : Tensor) : Tensor :=
  a.apply (fun d i => d * nthQ b.data i)

/-- Tensor::operator+(double). -/
def Tensor.addScalar (a : Tensor) (v : ℚ) : Tensor :=
  a.apply (fun d _ => d + v)

/-- Tensor::operator*(double). -/
def Tensor.mulScalar (a : Tensor) (v : ℚ) : Tensor :=
  a.apply (fun d _ => d * v)

/-- Tensor::relu(): elementwise d > 0.0 ? d : 0.0. -/
def Tensor.relu (a : Tensor) : Tensor :=
  a.apply (fun d _ => if 0 < d then d else 0)

/-- Tensor::power(value): elementwise std::pow(d, value). The source takes a
double exponent; the claims only exercise integer exponents on positive
powers of two, where std::pow is exact, so the exponent is modelled as an
integer and pow as the rational zpow. -/
def Tensor.power (a : Tensor) (e : ℤ) : Tensor :=
  a.apply (fun d _ => d ^ e)

/-- Tensor::sum(): result = 0.0; for (d : _data) result += d. -/
def Tensor.sum (t : Tensor) : ℚ := t.data.foldl (fun a d => a + d) 0

/-- Tensor::element(): throws unless _data.size() == 1, else _data[0]. -/
def Tensor.element (t : Tensor) : Except String ℚ :=
  if t.data.length = 1 then .ok (nthQ t.data 0) else
    .error "Tensor does not have a single element"

/-- Tensor::fill(shape, value). -/
def Tensor.fill (shape : List Nat) (v : ℚ) : Tensor :=
  ⟨List.replicate (getSize shape) v, shape, buildStrides shape⟩

/-- Tensor::zeros(shape). -/
def tzeros (shape : List Nat) : Tensor := Tensor.fill shape 0

/-- The loop counter sequence 0, 1, ..., n-1 of a C++ for loop, written as a
structural recursion (equal to List.range n). -/
def upto : Nat → List Nat
  | 0 => []
  | n + 1 => upto n ++ [n]

/-- The flat result buffer of Tensor::matmul's triple loop: for i < m rows,
j < p columns, sum += _data[i*n+k] * other._data[k*p+j] over k < n
(left-to-right accumulation, as in the source). -/
def matmulData (m n p : Nat) (ad bd : List ℚ) : List ℚ :=
  (upto m).flatMap (fun i =>
    (upto p).map (fun j =>
      (upto n).foldl (fun s k => s + nthQ ad (i * n + k) * nthQ bd (k * p + j)) 0))

/-- Tensor::matmul(other): the source asserts _shape.size() == 2 and then
asserts other._shape == _shape (identical shapes, NOT the inner-dimension
condition its own comment states); on success it builds
Tensor(data, [_shape[0], other._shape[1]]) from the triple loop. An assert
failure is modelled as an error result. -/
def Tensor.matmul (a b : Tensor) : Except String Tensor :=
  if a.shape.length = 2 ∧ b.shape = a.shape then
    Tensor.mk?
      (matmulData (a.shape.getD 0 0) (a.shape.getD 1 0) (b.shape.getD 1 0) a.data b.data)
      [a.shape.getD 0 0, b.shape.getD 1 0]
  else
    .error "assertion failed in Tensor::matmul"

/-- Modelled from the spec: Tensor::transpose is called by the tests
(src/src/tests.cpp lines 70-73) and by the MatMul backward rule
(src/src/engine.hpp lines 117-118) but its definition is not among the
provided sources. Spec: "transpose() (2D only): swaps the two axes and
permutes the data accordingly", so a shape [r, c] tensor becomes a
shape [c, r] tensor whose element (i, j) is the original element (j, i);
position i*r + j of the result holds position j*c + i of the original.
The spec does not define transpose on other ranks; those are left
unchanged (no claim exercises them). -/
def Tensor.transpose (t : Tensor) : Tensor :=
  match t.shape with
  | [r, c] =>
    ⟨(upto (c * r)).map (fun m => nthQ t.data ((m % r) * c + m / r)),
     [c, r], buildStrides [c, r]⟩
  | _ => t

/-- Tensor::operator<(const Tensor&): sum() < other.sum(). -/
def Tensor.ltT (a b : Tensor) : Bool := decide (a.sum < b.sum)

/-- Tensor::operator>(const Tensor&): sum() > other.sum(). -/
def Tensor.gtT (a b : Tensor) : Bool := decide (a.sum > b.sum)

/-- Tensor::operator<=(const Tensor&): sum() <= other.sum(). -/
def Tensor.leT (a b : Tensor) : Bool := decide (a.sum ≤ b.sum)

/-- Tensor::operator<(double): asserts _data.size() == 1, then
sum() < value. The assert is modelled as an error result. -/
def Tensor.ltD (a : Tensor) (v : ℚ) : Except String Bool :=
  if a.data.length = 1 then .ok (decide (a.sum < v)) else
    .error "assertion failed: single element comparison"

/-- Tensor::operator>(double). -/
def Tensor.gtD (a : Tensor) (v : ℚ) : Except String Bool :=
  if a.data.length = 1 then .ok (decide (a.sum > v)) else
    .error "assertion failed: single element comparison"

/-- Tensor::operator<=(double). -/
def Tensor.leD (a : Tensor) (v : ℚ) : Except String Bool :=
  if a.data.length = 1 then .ok (decide (a.sum ≤ v)) else
    .error "assertion failed: single element comparison"

/-- Tensor::operator==(double). -/
def Tensor.eqD (a : Tensor) (v : ℚ) : Except String Bool :=
  if a.data.length = 1 then .ok (decide (a.sum = v)) else
    .error "assertion failed: single element comparison"

/-- Tensor::operator!=(double). -/
def Tensor.neD (a : Tensor) (v : ℚ) : Except String Bool :=
  if a.data.length = 1 then .ok (decide (¬ a.sum = v)) else
    .error "assertion failed: single element comparison"

/-! ## The autodiff engine (src/src/engine.hpp)

Value nodes are shared_ptr-owned in the source; a node's operands always
point to strictly earlier-constructed nodes, so the graph is embedded as a
list of nodes indexed by creation order, every node's operand indices being
smaller than its own index. Node identity is index identity. -/

/-- enum class Operation. -/
inductive Operation where
  | Null
  | Addition
  | Multiplication
  | Power
  | RELU
  | MatMul
  | Sum
deriving DecidableEq, Repr

/-- struct Inputs (operation, operand nodes, power payload) — the per-node
provenance. The operand shared_ptrs become indices of earlier nodes. -/
structure VNode where
  op : Operation
  inputs : List Nat
  pow : ℤ
deriving DecidableEq, Repr

instance : Inhabited VNode := ⟨⟨.Null, [], 0⟩⟩

/-- The operand indices of node v (Value::_inputs.values). Indices past the
end of the graph have no node and no operands. -/
def nodeInputs (ops : List VNode) (v : Nat) : List Nat :=
  (ops.getD v default).inputs

/-- Value::buildTopo(topo, visited, value): depth-first; returns at once on a
visited node, otherwise marks it visited, recurses into each operand in
order, then appends the node to topo. The C++ recursion terminates because
operands are strictly earlier nodes; the embedding carries fuel, and fuel
v + 1 suffices for a start node v on a well-formed graph. State is the pair
(visited, topo). -/
def buildTopoAux (ops : List VNode) : Nat → List Nat × List Nat → Nat → List Nat × List Nat
  | 0, st, _ => st
  | fuel + 1, st, v =>
    if v ∈ st.1 then st
    else
      let st2 := (nodeInputs ops v).foldl (buildTopoAux ops fuel) (v :: st.1, st.2)
      (st2.1, st2.2 ++ [v])

/-- The topological order Value::backwards and Value::params build from a
root node. -/
def buildTopo (ops : List VNode) (v : Nat) : List Nat :=
  (buildTopoAux ops (v + 1) ([], []) v).2

/-- The whole engine state: per node its provenance, its forward value
(Value::_value, fixed at construction) and its gradient (Value::_grad). -/
structure GraphState where
  ops : List VNode
  vals : List Tensor
  grads : List Tensor
deriving DecidableEq, Repr

/-- The empty graph. -/
def emptyGraph : GraphState := ⟨[], [], []⟩

/-- Value node construction: the Value(Tensor, Inputs) constructor stores
the value and zero-initializes _grad to Tensor::zeros(value.shape()). -/
def GraphState.push (s : GraphState) (nd : VNode) (val : Tensor) : GraphState :=
  ⟨s.ops ++ [nd], s.vals ++ [val], s.grads ++ [tzeros val.shape]⟩

/-- Value::_value of node i. -/
def valAt (s : GraphState) (i : Nat) : Tensor := s.vals.getD i default

/-- Value::_grad of node i. -/
def gradAt (s : GraphState) (i : Nat) : Tensor := s.grads.getD i default

/-- Value::make on a leaf: Null operation, no operands. (The Value(double)
constructor stores Tensor::single(v) with _grad = Tensor(0.0), which equals
Tensor::zeros of shape [1].) -/
def mkLeaf (s : GraphState) (t : Tensor) : GraphState :=
  s.push ⟨.Null, [], 0⟩ t

/-- operator+(ValuePtr, ValuePtr): value a.value + b.value, Addition node. -/
def mkAdd (s : GraphState) (a b : Nat) : GraphState :=
  s.push ⟨.Addition, [a, b], 0⟩ (Tensor.add (valAt s a) (valAt s b))

/-- operator*(ValuePtr, ValuePtr): value a.value * b.value, Multiplication
node. -/
def mkMul (s : GraphState) (a b : Nat) : GraphState :=
  s.push ⟨.Multiplication, [a, b], 0⟩ (Tensor.mul (valAt s a) (valAt s b))

/-- power(ValuePtr, double): value a.value.power(e), Power node carrying the
exponent. -/
def mkPower (s : GraphState) (a : Nat) (e : ℤ) : GraphState :=
  s.push ⟨.Power, [a], e⟩ ((valAt s a).power e)

/-- relu(ValuePtr): value a.value with negatives clamped to 0, RELU node. -/
def mkRelu (s : GraphState) (a : Nat) : GraphState :=
  s.push ⟨.RELU, [a], 0⟩ ((valAt s a).relu)

/-- matmul(ValuePtr, ValuePtr): value a.value.matmul(b.value) (which can
fail on the matmul asserts), MatMul node. -/
def mkMatmul (s : GraphState) (a b : Nat) : Except String GraphState :=
  ((valAt s a).matmul (valAt s b)).map (s.push ⟨.MatMul, [a, b], 0⟩)

/-- sum(ValuePtr): value Tensor(a.value.sum()) of shape [1], Sum node. -/
def mkSum (s : GraphState) (a : Nat) : GraphState :=
  s.push ⟨.Sum, [a], 0⟩ (tsingle ((valAt s a).sum))

/-- grads with contribution c added elementwise into position p
(the C++ statement values[p]->_grad += c). -/
def gaddT (gs : List Tensor) (p : Nat) (c : Tensor) : List Tensor :=
  gs.set p (Tensor.add (gs.getD p default) c)

/-- grads with scalar e added to every element of position p
(the C++ statement values[p]->_grad += e with a double e). -/
def gaddS (gs : List Tensor) (p : Nat) (e : ℚ) : List Tensor :=
  gs.set p (Tensor.addScalar (gs.getD p default) e)

/-- Value::backwardsOnce, statement by statement. Each C++ statement
values[k]->_grad += ... becomes one grads update; reads of this->_grad
(self gradient) re-read the current grads, as the C++ member read does, and
reads of operand values go to the immutable vals. MatMul's backward calls
the asserting matmul, and Sum's backward calls the throwing element(), so
the result is fallible. -/
def backwardsOnce (ops : List VNode) (vals : List Tensor) (gs : List Tensor) (v : Nat) :
    Except String (List Tensor) :=
  let nd := ops.getD v default
  match nd.op with
  | .Null => .ok gs
  | .Addition =>
    let gs1 := gaddT gs (nd.inputs.getD 0 0) (gs.getD v default)
    .ok (gaddT gs1 (nd.inputs.getD 1 0) (gs1.getD v default))
  | .Multiplication =>
    let a := nd.inputs.getD 0 0
    let b := nd.inputs.getD 1 0
    let gs1 := gaddT gs a (Tensor.mul (vals.getD b default) (gs.getD v default))
    .ok (gaddT gs1 b (Tensor.mul (vals.getD a default) (gs1.getD v default)))
  | .Power =>
    let a := nd.inputs.getD 0 0
    .ok (gaddT gs a
      (Tensor.mul (Tensor.mulScalar ((vals.getD a default).power (nd.pow - 1)) nd.pow)
        (gs.getD v default)))
  | .RELU =>
    let a := nd.inputs.getD 0 0
    .ok (gaddT gs a
      (Tensor.mul (gs.getD v default)
        ((vals.getD v default).apply (fun x _ => if 0 < x then 1 else 0))))
  | .MatMul =>
    let a := nd.inputs.getD 0 0
    let b := nd.inputs.getD 1 0
    match Tensor.matmul (gs.getD v default) ((vals.getD b default).transpose) with
    | .error e => .error e
    | .ok ga =>
      let gs1 := gaddT gs a ga
      match Tensor.matmul ((vals.getD a default).transpose) (gs1.getD v default) with
      | .error e => .error e
      | .ok gb => .ok (gaddT gs1 b gb)
  | .Sum =>
    let a := nd.inputs.getD 0 0
    match Tensor.element (gs.getD v default) with
    | .error e => .error e
    | .ok e => .ok (gaddS gs a e)

/-- The std::for_each over the reversed topological order: apply
backwardsOnce to each node in turn, threading the grads, stopping on a
failed assert. -/
def runRev (ops : List VNode) (vals : List Tensor) : List Tensor → List Nat → Except String (List Tensor)
  | gs, [] => .ok gs
  | gs, v :: rest =>
    match backwardsOnce ops vals gs v with
    | .error e => .error e
    | .ok gs2 => runRev ops vals gs2 rest

/-- Value::backwards: build the topological order from the root, seed the
root gradient to all ones of its own shape (_grad.apply returning 1.0), then
run backwardsOnce over the order in reverse. -/
def backwards (s : GraphState) (root : Nat) : Except String GraphState :=
  let topo := buildTopo s.ops root
  let g0 := s.grads.set root ((s.grads.getD root default).apply (fun _ _ => 1))
  (runRev s.ops s.vals g0 topo.reverse).map (fun g => ⟨s.ops, s.vals, g⟩)

/-! ## The gradient contributions of a backward rule, as data

Every branch of Value::backwardsOnce is a sequence of statements
operand->_grad += contribution, where each contribution is computed from
operand values and from the node's own gradient only. contribs lists those
(operand, contribution) pairs; applyDeltas replays them as accumulating
updates. backwardsOnce is proved equal to contribs followed by applyDeltas,
which is the accumulate-only reading of the backward rules. -/

/-- One += contribution: a whole tensor added elementwise, or a scalar added
to every element (Sum's backward uses the scalar += overload). -/
inductive GradDelta where
  | tens (t : Tensor)
  | scal (q : ℚ)
deriving DecidableEq, Repr

/-- Replay one operand->_grad += contribution statement. -/
def applyDelta (gs : List Tensor) : Nat × GradDelta → List Tensor
  | (p, .tens c) => gaddT gs p c
  | (p, .scal e) => gaddS gs p e

/-- Replay a list of += statements in order. -/
def applyDeltas (gs : List Tensor) (l : List (Nat × GradDelta)) : List Tensor :=
  l.foldl applyDelta gs

/-- The (operand, contribution) pairs a node's backward rule fires, reading
the node's own gradient only through the selfGrad argument and the operands
only through their immutable values. -/
def contribs (ops : List VNode) (vals : List Tensor) (selfGrad : Tensor) (v : Nat) :
    Except String (List (Nat × GradDelta)) :=
  let nd := ops.getD v default
  match nd.op with
  | .Null => .ok []
  | .Addition =>
    .ok [(nd.inputs.getD 0 0, .tens selfGrad), (nd.inputs.getD 1 0, .tens selfGrad)]
  | .Multiplication =>
    let a := nd.inputs.getD 0 0
    let b := nd.inputs.getD 1 0
    .ok [(a, .tens (Tensor.mul (vals.getD b default) selfGrad)),
         (b, .tens (Tensor.mul (vals.getD a default) selfGrad))]
  | .Power =>
    let a := nd.inputs.getD 0 0
    .ok [(a, .tens (Tensor.mul
      (Tensor.mulScalar ((vals.getD a default).power (nd.pow - 1)) nd.pow) selfGrad))]
  | .RELU =>
    let a := nd.inputs.getD 0 0
    .ok [(a, .tens (Tensor.mul selfGrad
      ((vals.getD v default).apply (fun x _ => if 0 < x then 1 else 0))))]
  | .MatMul =>
    let a := nd.inputs.getD 0 0
    let b := nd.inputs.getD 1 0
    match Tensor.matmul selfGrad ((vals.getD b default).transpose) with
    | .error e => .error e
    | .ok ga =>
      match Tensor.matmul ((vals.getD a default).transpose) selfGrad with
      | .error e => .error e
      | .ok gb => .ok [(a, .tens ga), (b, .tens gb)]
  | .Sum =>
    let a := nd.inputs.getD 0 0
    match Tensor.element selfGrad with
    | .error e => .error e
    | .ok e => .ok [(a, .scal e)]

/-- The grad positions a node's backward rule writes (its operand slots,
with the source's defaulted reads for missing slots). -/
def touched (nd : VNode) : List Nat :=
  match nd.op with
  | .Null => []
  | .Addition => [nd.inputs.getD 0 0, nd.inputs.getD 1 0]
  | .Multiplication => [nd.inputs.getD 0 0, nd.inputs.getD 1 0]
  | .MatMul => [nd.inputs.getD 0 0, nd.inputs.getD 1 0]
  | .Power => [nd.inputs.getD 0 0]
  | .RELU => [nd.inputs.getD 0 0]
  | .Sum => [nd.inputs.getD 0 0]

/-! ## Graph well-formedness and reachability -/

/-- Acyclicity by construction: every operand of a node is a strictly
earlier-constructed node (spec: "operands always point to strictly
earlier-constructed nodes"). Boolean, so a concrete graph can be checked by
evaluation. -/
def WfB (ops : List VNode) : Bool :=
  (List.range ops.length).all (fun v => (nodeInputs ops v).all (fun j => j < v))

/-- Propositional form of WfB, over all indices (past the end a node has no
operands). -/
def Wf (ops : List VNode) : Prop :=
  ∀ v, ∀ j ∈ nodeInputs ops v, j < v

/-- Reachability along operand edges: the nodes backward must visit from a
root. -/
inductive Reaches (ops : List VNode) : Nat → Nat → Prop where
  | refl (v : Nat) : Reaches ops v v
  | step (v w u : Nat) : w ∈ nodeInputs ops v → Reaches ops w u → Reaches ops v u

/-! ## The concrete graphs of the claims -/

/-- The graph of engineTests (src/src/tests.cpp lines 78-88): leaves
a = 2 (node 0), b = -3 (node 1), c = 10 (node 2); e = a*b (node 3),
d = e+c (node 4), leaf f = 2 (node 5), L = d*f (node 6),
lpow = power(L, -1) (node 7), r = relu(lpow) (node 8). -/
def c3Graph : GraphState :=
  let s := mkLeaf emptyGraph (tsingle 2)
  let s := mkLeaf s (tsingle (-3))
  let s := mkLeaf s (tsingle 10)
  let s := mkMul s 0 1
  let s := mkAdd s 3 2
  let s := mkLeaf s (tsingle 2)
  let s := mkMul s 4 5
  let s := mkPower s 6 (-1)
  mkRelu s 7

/-- The fan-in graph y = (a*a) + a: leaf a (node 0) with value x, a*a
(node 1), y (node 2). The leaf is an operand of both the product and the
sum, so one backward pass sends it three contributions. -/
def c4Graph (x : ℚ) : GraphState :=
  let s := mkLeaf emptyGraph (tsingle x)
  let s := mkMul s 0 0
  mkAdd s 1 0

instance {ε α} [DecidableEq ε] [DecidableEq α] : DecidableEq (Except ε α) := fun x y =>
  match x, y with
  | .ok a, .ok b => if h : a = b then .isTrue (by rw [h]) else .isFalse (by simp [h])
  | .error a, .error b => if h : a = b then .isTrue (by rw [h]) else .isFalse (by simp [h])
  | .ok _, .error _ => .isFalse (by simp)
  | .error _, .ok _ => .isFalse (by simp)

/-- Dependency-first order: every element's operands occur strictly before
it (within the first i positions, for the element at position i). -/
def okOrder (ops : List VNode) (l : List Nat) : Prop :=
  ∀ i (h : i < l.length), ∀ j ∈ nodeInputs ops (l.get ⟨i, h⟩), j ∈ l.take i

/-- What one buildTopoAux call does to the (visited, topo) state: topo is
extended (never reordered), visited grows, the extended topo stays
duplicate-free and dependency-first and inside visited, the set of
visited-but-not-yet-emitted nodes is unchanged, and the start node ends up
in topo. -/
def TopoPost (ops : List VNode) (st st2 : List Nat × List Nat) (v : Nat) : Prop :=
  (∃ t, st2.2 = st.2 ++ t) ∧
  (∀ u ∈ st.1, u ∈ st2.1) ∧
  st2.2.Nodup ∧
  okOrder ops st2.2 ∧
  (∀ u ∈ st2.2, u ∈ st2.1) ∧
  (∀ u, (u ∈ st2.1 ∧ u ∉ st2.2) ↔ (u ∈ st.1 ∧ u ∉ st.2)) ∧
  v ∈ st2.2

/-- The induction hypothesis of the buildTopo proof, as a statement about
one fuel level: on any state whose pending (visited-but-not-emitted) nodes
all exceed the start node, the call satisfies TopoPost. -/
def BtSpec (ops : List VNode) (fuel : Nat) : Prop :=
  ∀ v vis topo, v < fuel →
    topo.Nodup → okOrder ops topo → (∀ u ∈ topo, u ∈ vis) →
    (∀ u ∈ vis, u ∉ topo → v < u) →
    TopoPost ops (vis, topo) (buildTopoAux ops fuel (vis, topo) v) v

/-! ## Helper lemmas -/

theorem getD_set_ne {α : Type} [Inhabited α] (l : List α) (i j : Nat) (a : α)
    (h : ¬ i = j) : (l.set i a).getD j default = l.getD j default := by
  simp [List.getD_eq_getElem?_getD, List.getElem?_set_ne h]

theorem gaddT_getD_ne (gs : List Tensor) (p q : Nat) (c : Tensor) (h : ¬ p = q) :
    (gaddT gs p c).getD q default = gs.getD q default :=
  getD_set_ne gs p q _ h

theorem tensorSum_eq_dataSum (t : Tensor) : Tensor.sum t = t.data.sum :=
  (List.sum_eq_foldl).symm

/-! ## The claims -/

/-- Claim C2 (code bug): the spec says strides are row-major,
strides[d] = product(shape[d+1:]), so a shape [r, c] tensor has strides
[c, 1]; the source's buildStrides multiplies by shape[i] instead of
shape[i+1] and produces [r, 1]. At shape [2, 3] the code yields [2, 1]
where the spec (and the row-major indexing operator[] relies on) requires
[3, 1]; constructing a tensor of shape [2, 3] shows the stored strides. In
general buildStrides [r, c] = [r, 1]. The two formulas coincide only
coincidentally (e.g. on square shapes), which is why the tests, all square,
pass. -/
theorem buildStrides_row_major_bug :
    buildStrides [2, 3] = [2, 1] ∧ specStrides [2, 3] = [3, 1] ∧
    ¬ buildStrides [2, 3] = specStrides [2, 3] ∧
    (Tensor.mk? [1, 2, 3, 4, 5, 6] [2, 3]).map (fun t => (t.shape, t.strides)) =
      .ok ([2, 3], [2, 1]) ∧
    (∀ r c : Nat, buildStrides [r, c] = [r, 1]) := by
  refine ⟨by decide, by decide, by decide, by decide, ?_⟩
  intro r c
  simp [buildStrides]

/-- Claim C3: the engineTests graph (a = 2, b = -3, c = 10, e = a*b,
d = e+c, f = 2, L = d*f, lpow = power(L, -1), r = relu(lpow)); after
backward from r: r.value = 0.125 = 1/8, L.value = 8, L.grad = -0.015625 =
-1/64 and a.grad = 0.09375 = 3/32. All values are dyadic rationals, exactly
representable in binary64, so these rational equalities are the claim's
exact floating-point equalities. -/
theorem engine_scalar_chain_rule :
    valAt c3Graph 8 = tsingle (1/8) ∧ valAt c3Graph 6 = tsingle 8 ∧
    (backwards c3Graph 8).map (fun s2 => (gradAt s2 6, gradAt s2 0)) =
      .ok (tsingle (-(1/64)), tsingle (3/32)) := by
  refine ⟨?_, ?_, ?_⟩ <;>
  · norm_num [c3Graph, mkLeaf, mkAdd, mkMul, mkPower, mkRelu, emptyGraph,
      GraphState.push, valAt, gradAt, tsingle, tzeros, Tensor.fill, getSize,
      buildStrides, backwards, buildTopo, buildTopoAux, nodeInputs,
      backwardsOnce, gaddT, gaddS, Tensor.add, Tensor.mul, Tensor.mulScalar,
      Tensor.addScalar, Tensor.apply, Tensor.power, Tensor.relu, nthQ,
      Tensor.element, Tensor.sum, runRev, applyIdx, upto, Except.map,
      List.getElem?_cons_succ, List.getElem?_cons_zero]

/-- Claim C4: for a leaf a of any value x (gradients are zero-initialized at
construction), backward through y = (a*a) + a gives a.grad = 2*x + 1: the
leaf is an operand of the product (twice) and of the sum, and the three
contributions accumulate. -/
theorem gradient_fanin_accumulation : ∀ x : ℚ,
    (backwards (c4Graph x) 2).map (fun s2 => gradAt s2 0) =
      .ok (tsingle (2 * x + 1)) := by
  intro x
  simp [c4Graph, mkLeaf, mkAdd, mkMul, emptyGraph,
    GraphState.push, valAt, gradAt, tsingle, tzeros, Tensor.fill, getSize,
    buildStrides, backwards, buildTopo, buildTopoAux, nodeInputs,
    backwardsOnce, gaddT, gaddS, Tensor.add, Tensor.mul,
    Tensor.apply, nthQ, runRev, applyIdx, upto, Except.map,
    List.getElem?_cons_succ, List.getElem?_cons_zero]
  ring

/-- Claim C7: Tensor(data, shape) succeeds, keeping the data untruncated and
unpadded, exactly when product(shape) = len(data), and otherwise fails with
the size-mismatch error; in particular Tensor([1,2,3,4],[2,2]) succeeds and
Tensor([1,2,3],[2,2]) fails. -/
theorem tensor_construction_size_guard :
    (∀ (d : List ℚ) (s : List Nat),
      (∃ t, Tensor.mk? d s = .ok t ∧ t.data = d ∧ t.shape = s) ↔
        getSize s = d.length) ∧
    (∀ (d : List ℚ) (s : List Nat),
      Tensor.mk? d s = .error "Data size does not match shape" ↔
        ¬ getSize s = d.length) ∧
    Tensor.mk? [1, 2, 3, 4] [2, 2] = .ok ⟨[1, 2, 3, 4], [2, 2], [2, 1]⟩ ∧
    Tensor.mk? [1, 2, 3] [2, 2] = .error "Data size does not match shape" := by
  refine ⟨?_, ?_, ?_, ?_⟩
  · intro d s
    constructor
    · rintro ⟨t, ht, -, -⟩
      by_contra h
      simp [Tensor.mk?, h] at ht
    · intro h
      exact ⟨⟨d, s, buildStrides s⟩, by simp [Tensor.mk?, h], rfl, rfl⟩
  · intro d s
    constructor
    · intro h hs
      simp [Tensor.mk?, hs] at h
    · intro h
      simp [Tensor.mk?, h]
  · norm_num [Tensor.mk?, getSize, buildStrides]
  · norm_num [Tensor.mk?, getSize]

/-- Witness for C7 at a concrete input. -/
theorem tensor_construction_size_guard_witness :
    Tensor.mk? [1, 2, 3] [2, 2] = .error "Data size does not match shape" :=
  tensor_construction_size_guard.2.2.2

/-- Claim C10: view(shape) is literally the checking constructor applied to
the tensor's flat data: it shares the data, takes the new shape with strides
recomputed from it, and fails with the constructor's size-mismatch error
exactly when product(shape) differs from the data length. -/
theorem view_delegates_to_constructor (t : Tensor) (s : List Nat) :
    Tensor.view t s = Tensor.mk? t.data s ∧
    (∀ u, Tensor.view t s = .ok u →
      u.data = t.data ∧ u.shape = s ∧ u.strides = buildStrides s) ∧
    ((∃ u, Tensor.view t s = .ok u) ↔ getSize s = t.data.length) ∧
    (Tensor.view t s = .error "Data size does not match shape" ↔
      ¬ getSize s = t.data.length) := by
  refine ⟨rfl, ?_, ?_, ?_⟩
  · intro u hu
    by_cases h : getSize s = t.data.length
    · simp [Tensor.view, Tensor.mk?, h] at hu
      exact ⟨by rw [← hu], by rw [← hu], by rw [← hu]⟩
    · simp [Tensor.view, Tensor.mk?, h] at hu
  · constructor
    · rintro ⟨u, hu⟩
      by_contra h
      simp [Tensor.view, Tensor.mk?, h] at hu
    · intro h
      exact ⟨⟨t.data, s, buildStrides s⟩, by simp [Tensor.view, Tensor.mk?, h]⟩
  · by_cases h : getSize s = t.data.length <;> simp [Tensor.view, Tensor.mk?, h]

/-- Witness for C10 at a concrete input. -/
theorem view_delegates_to_constructor_witness :
    Tensor.view (tsingle 1) [1] = Tensor.mk? (tsingle 1).data [1] :=
  (view_delegates_to_constructor (tsingle 1) [1]).1

/-- Claim C9: tensor-tensor <, > and <= compare the sums of the elements;
tensor-double <, >, <=, ==, != insist (assert) on exactly one element and
compare that element against the double. -/
theorem tensor_comparisons_use_sums (a b : Tensor) :
    (Tensor.ltT a b = true ↔ a.data.sum < b.data.sum) ∧
    (Tensor.gtT a b = true ↔ b.data.sum < a.data.sum) ∧
    (Tensor.leT a b = true ↔ a.data.sum ≤ b.data.sum) ∧
    (∀ v : ℚ,
      ((∃ r, Tensor.ltD a v = .ok r) ↔ a.data.length = 1) ∧
      (∀ x : ℚ, a.data = [x] →
        Tensor.ltD a v = .ok (decide (x < v)) ∧
        Tensor.gtD a v = .ok (decide (v < x)) ∧
        Tensor.leD a v = .ok (decide (x ≤ v)) ∧
        Tensor.eqD a v = .ok (decide (x = v)) ∧
        Tensor.neD a v = .ok (decide (¬ x = v)))) := by
  have hsum : ∀ u : Tensor, Tensor.sum u = u.data.sum := tensorSum_eq_dataSum
  refine ⟨?_, ?_, ?_, ?_⟩
  · simp [Tensor.ltT, hsum]
  · simp [Tensor.gtT, hsum, gt_iff_lt]
  · simp [Tensor.leT, hsum]
  · intro v
    constructor
    · constructor
      · rintro ⟨r, hr⟩
        by_contra h
        simp [Tensor.ltD, h] at hr
      · intro h
        exact ⟨decide (Tensor.sum a < v), by simp [Tensor.ltD, h]⟩
    · intro x hx
      have hlen : a.data.length = 1 := by rw [hx]; rfl
      have hs : Tensor.sum a = x := by rw [hsum, hx]; simp
      refine ⟨?_, ?_, ?_, ?_, ?_⟩ <;>
        simp [Tensor.ltD, Tensor.gtD, Tensor.leD, Tensor.eqD, Tensor.neD, hlen, hs,
          gt_iff_lt]

/-- Witness for C9 at a concrete input. -/
theorem tensor_comparisons_use_sums_witness :
    Tensor.ltD (tsingle 1) 2 = .ok (decide ((1 : ℚ) < 2)) :=
  (((tensor_comparisons_use_sums (tsingle 1) (tsingle 2)).2.2.2 2).2 1 rfl).1

/-- Claim C1 (code bug): Tensor::matmul's own comment requires only
this.shape[1] == other.shape[0] (the claim's precondition), but the code
asserts other._shape == _shape — identical shapes. The valid 1x2 by 2x1
product (both constructible tensors, inner dimensions 2 = 2) is rejected by
the assert; when the assert does pass (equal, hence square, shapes) the
triple loop produces exactly the claimed row-by-column sums, as on the
spec's 2x2 example [[1,2],[3,4]] times [[5,6],[7,8]] = [[19,22],[43,50]]
with result shape [rows of left, columns of right]. -/
theorem matmul_assert_vs_inner_dim :
    Tensor.mk? [1, 2] [1, 2] = .ok ⟨[1, 2], [1, 2], [1, 1]⟩ ∧
    Tensor.mk? [3, 4] [2, 1] = .ok ⟨[3, 4], [2, 1], [2, 1]⟩ ∧
    ([1, 2] : List Nat).getD 1 0 = ([2, 1] : List Nat).getD 0 0 ∧
    Tensor.matmul ⟨[1, 2], [1, 2], [1, 1]⟩ ⟨[3, 4], [2, 1], [2, 1]⟩ =
      .error "assertion failed in Tensor::matmul" ∧
    Tensor.matmul ⟨[1, 2, 3, 4], [2, 2], [2, 1]⟩ ⟨[5, 6, 7, 8], [2, 2], [2, 1]⟩ =
      .ok ⟨[19, 22, 43, 50], [2, 2], [2, 1]⟩ := by
  refine ⟨?_, ?_, by decide, ?_, ?_⟩
  · norm_num [Tensor.mk?, getSize, buildStrides]
  · norm_num [Tensor.mk?, getSize, buildStrides]
  · norm_num [Tensor.matmul]
  · norm_num [Tensor.matmul, Tensor.mk?, getSize, buildStrides, matmulData,
      upto, nthQ]

/-- Claim C5: every backward rule is a sequence of accumulating updates
operand.grad += contribution — backwardsOnce equals firing the rule's
(operand, contribution) list, each contribution computed from operand
values and the node's own gradient only, replayed as += updates; the fired
positions are exactly the rule's operand slots; and every other node's
gradient is untouched. The hypothesis (the node is not its own first
operand slot) holds on every by-construction graph, where operands are
strictly earlier nodes. -/
theorem backward_rules_accumulate (ops : List VNode) (vals gs : List Tensor) (v : Nat)
    (h0 : ¬ (ops.getD v default).inputs.getD 0 0 = v) :
    backwardsOnce ops vals gs v =
      (contribs ops vals (gs.getD v default) v).map (applyDeltas gs) ∧
    (∀ cs, contribs ops vals (gs.getD v default) v = .ok cs →
      cs.map Prod.fst = touched (ops.getD v default)) ∧
    (∀ gs2, backwardsOnce ops vals gs v = .ok gs2 →
      ∀ p, ¬ p ∈ touched (ops.getD v default) →
        gs2.getD p default = gs.getD p default) := by
  rcases hop : (ops.getD v default).op with _ | _ | _ | _ | _ | _ | _
  case Null =>
    refine ⟨?_, ?_, ?_⟩
    · simp only [backwardsOnce, contribs, hop, applyDeltas, List.foldl_nil, Except.map]
    · intro cs hcs
      simp only [contribs, hop, Except.ok.injEq] at hcs
      simp only [← hcs, touched, hop, List.map_nil]
    · intro gs2 h2 p hp
      simp only [backwardsOnce, hop, Except.ok.injEq] at h2
      rw [← h2]
  case Addition =>
    have hread : (gaddT gs ((ops.getD v default).inputs.getD 0 0)
        (gs.getD v default)).getD v default = gs.getD v default :=
      gaddT_getD_ne _ _ _ _ h0
    refine ⟨?_, ?_, ?_⟩
    · simp only [backwardsOnce, contribs, hop, applyDeltas, applyDelta,
        List.foldl_cons, List.foldl_nil, Except.map, hread]
    · intro cs hcs
      simp only [contribs, hop, Except.ok.injEq] at hcs
      simp only [← hcs, touched, hop, List.map_cons, List.map_nil]
    · intro gs2 h2 p hp
      simp only [touched, hop, List.mem_cons, not_or] at hp
      simp only [backwardsOnce, hop, Except.ok.injEq] at h2
      rw [← h2, gaddT_getD_ne _ _ _ _ (fun he => hp.2.1 he.symm),
        gaddT_getD_ne _ _ _ _ (fun he => hp.1 he.symm)]
  case Multiplication =>
    have hread : ∀ c, (gaddT gs ((ops.getD v default).inputs.getD 0 0) c).getD v
        default = gs.getD v default := fun c => gaddT_getD_ne _ _ _ _ h0
    refine ⟨?_, ?_, ?_⟩
    · simp only [backwardsOnce, contribs, hop, applyDeltas, applyDelta,
        List.foldl_cons, List.foldl_nil, Except.map, hread]
    · intro cs hcs
      simp only [contribs, hop, Except.ok.injEq] at hcs
      simp only [← hcs, touched, hop, List.map_cons, List.map_nil]
    · intro gs2 h2 p hp
      simp only [touched, hop, List.mem_cons, not_or] at hp
      simp only [backwardsOnce, hop, Except.ok.injEq] at h2
      rw [← h2, gaddT_getD_ne _ _ _ _ (fun he => hp.2.1 he.symm),
        gaddT_getD_ne _ _ _ _ (fun he => hp.1 he.symm)]
  case Power =>
    refine ⟨?_, ?_, ?_⟩
    · simp only [backwardsOnce, contribs, hop, applyDeltas, applyDelta,
        List.foldl_cons, List.foldl_nil, Except.map]
    · intro cs hcs
      simp only [contribs, hop, Except.ok.injEq] at hcs
      simp only [← hcs, touched, hop, List.map_cons, List.map_nil]
    · intro gs2 h2 p hp
      simp only [touched, hop, List.mem_cons, not_or, List.not_mem_nil] at hp
      simp only [backwardsOnce, hop, Except.ok.injEq] at h2
      rw [← h2, gaddT_getD_ne _ _ _ _ (fun he => hp.1 he.symm)]
  case RELU =>
    refine ⟨?_, ?_, ?_⟩
    · simp only [backwardsOnce, contribs, hop, applyDeltas, applyDelta,
        List.foldl_cons, List.foldl_nil, Except.map]
    · intro cs hcs
      simp only [contribs, hop, Except.ok.injEq] at hcs
      simp only [← hcs, touched, hop, List.map_cons, List.map_nil]
    · intro gs2 h2 p hp
      simp only [touched, hop, List.mem_cons, not_or, List.not_mem_nil] at hp
      simp only [backwardsOnce, hop, Except.ok.injEq] at h2
      rw [← h2, gaddT_getD_ne _ _ _ _ (fun he => hp.1 he.symm)]
  case MatMul =>
    have hread : ∀ c, (gaddT gs ((ops.getD v default).inputs.getD 0 0) c).getD v
        default = gs.getD v default := fun c => gaddT_getD_ne _ _ _ _ h0
    rcases hm1 : Tensor.matmul (gs.getD v default)
        ((vals.getD ((ops.getD v default).inputs.getD 1 0) default).transpose)
      with e1 | ga
    · refine ⟨?_, ?_, ?_⟩
      · simp only [backwardsOnce, contribs, hop, hm1, Except.map]
      · intro cs hcs
        simp only [contribs, hop, hm1] at hcs
        exact Except.noConfusion hcs
      · intro gs2 h2 p hp
        simp only [backwardsOnce, hop, hm1] at h2
        exact Except.noConfusion h2
    · rcases hm2 : Tensor.matmul
          ((vals.getD ((ops.getD v default).inputs.getD 0 0) default).transpose)
          (gs.getD v default) with e2 | gb
      · refine ⟨?_, ?_, ?_⟩
        · simp only [backwardsOnce, contribs, hop, hm1, hread, hm2, Except.map]
        · intro cs hcs
          simp only [contribs, hop, hm1, hm2] at hcs
          exact Except.noConfusion hcs
        · intro gs2 h2 p hp
          simp only [backwardsOnce, hop, hm1, hread, hm2] at h2
          exact Except.noConfusion h2
      · refine ⟨?_, ?_, ?_⟩
        · simp only [backwardsOnce, contribs, hop, hm1, hread, hm2, Except.map,
            applyDeltas, applyDelta, List.foldl_cons, List.foldl_nil]
        · intro cs hcs
          simp only [contribs, hop, hm1, hm2, Except.ok.injEq] at hcs
          simp only [← hcs, touched, hop, List.map_cons, List.map_nil]
        · intro gs2 h2 p hp
          simp only [touched, hop, List.mem_cons, not_or] at hp
          simp only [backwardsOnce, hop, hm1, hread, hm2, Except.ok.injEq] at h2
          rw [← h2, gaddT_getD_ne _ _ _ _ (fun he => hp.2.1 he.symm),
            gaddT_getD_ne _ _ _ _ (fun he => hp.1 he.symm)]
  case Sum =>
    rcases he1 : Tensor.element (gs.getD v default) with e1 | e
    · refine ⟨?_, ?_, ?_⟩
      · simp only [backwardsOnce, contribs, hop, he1, Except.map]
      · intro cs hcs
        simp only [contribs, hop, he1] at hcs
        exact Except.noConfusion hcs
      · intro gs2 h2 p hp
        simp only [backwardsOnce, hop, he1] at h2
        exact Except.noConfusion h2
    · refine ⟨?_, ?_, ?_⟩
      · simp only [backwardsOnce, contribs, hop, he1, Except.map,
          applyDeltas, applyDelta, List.foldl_cons, List.foldl_nil]
      · intro cs hcs
        simp only [contribs, hop, he1, Except.ok.injEq] at hcs
        simp only [← hcs, touched, hop, List.map_cons, List.map_nil]
      · intro gs2 h2 p hp
        simp only [touched, hop, List.mem_cons, not_or, List.not_mem_nil] at hp
        simp only [backwardsOnce, hop, he1, Except.ok.injEq] at h2
        rw [← h2]
        exact getD_set_ne _ _ _ _ (fun heq => hp.1 heq.symm)

/-- Witness for C5 at a concrete input (a leaf node, not its own operand). -/
theorem backward_rules_accumulate_witness :
    backwardsOnce [default, default] [] [] 1 =
      (contribs [default, default] [] (([] : List Tensor).getD 1 default) 1).map
        (applyDeltas []) :=
  (backward_rules_accumulate [default, default] [] [] 1 (by decide)).1

theorem upto_eq_range : ∀ n, upto n = List.range n := by
  intro n
  induction n with
  | zero => rfl
  | succ k ih => rw [upto, ih, List.range_succ]

theorem nthQ_map_range (f : Nat → ℚ) (n k : Nat) (hk : k < n) :
    nthQ ((List.range n).map f) k = f k := by
  simp [nthQ, List.getD_eq_getElem?_getD, List.getElem?_map, List.getElem?_range hk]

theorem range_map_nthQ : ∀ d : List ℚ,
    (List.range d.length).map (fun m => nthQ d m) = d := by
  intro d
  induction d with
  | nil => rfl
  | cons a t ih =>
    rw [List.length_cons, List.range_succ_eq_map, List.map_cons, List.map_map]
    have h1 : nthQ (a :: t) 0 = a := rfl
    have h2 : ((fun m => nthQ (a :: t) m) ∘ Nat.succ) = fun m => nthQ t m := by
      funext m
      rfl
    rw [h1, h2, ih]

/-- Decoding of the flattened row-major pair (a, b) written at index
a * B + b: the index is in range and splits back into a and b. -/
theorem encdec (a b A B : Nat) (ha : a < A) (hb : b < B) :
    a * B + b < A * B ∧ (a * B + b) % B = b ∧ (a * B + b) / B = a := by
  refine ⟨?_, ?_, ?_⟩
  · calc a * B + b < a * B + B := by omega
    _ = (a + 1) * B := by ring
    _ ≤ A * B := Nat.mul_le_mul_right B ha
  · rw [Nat.mul_comm a B, Nat.mul_add_mod, Nat.mod_eq_of_lt hb]
  · rw [Nat.mul_comm a B, Nat.mul_add_div (by omega : 0 < B), Nat.div_eq_of_lt hb]
    omega

/-- Claim C8: transpose of a shape [r, c] tensor (with the construction
invariants: data length r * c, strides as built from the shape) has shape
[c, r] with element (i, j) equal to the original element (j, i), and
transposing twice gives back the original tensor. transpose is modelled
from the spec, its definition being absent from the provided sources. -/
theorem transpose_involution (t : Tensor) (r c : Nat) (hs : t.shape = [r, c])
    (hl : t.data.length = r * c) (hst : t.strides = buildStrides [r, c]) :
    (t.transpose.shape = [c, r] ∧
     ∀ i j, i < c → j < r →
       nthQ t.transpose.data (i * r + j) = nthQ t.data (j * c + i)) ∧
    t.transpose.transpose = t := by
  obtain ⟨d, sh, st⟩ := t
  simp only at hs hl hst
  subst hs
  subst hst
  have hT : Tensor.transpose ⟨d, [r, c], buildStrides [r, c]⟩ =
      ⟨(List.range (c * r)).map (fun m => nthQ d ((m % r) * c + m / r)),
       [c, r], buildStrides [c, r]⟩ := by
    simp [Tensor.transpose, upto_eq_range]
  constructor
  · constructor
    · rw [hT]
    · intro i j hi hj
      rw [hT]
      obtain ⟨hlt, hmod, hdiv⟩ := encdec i j c r hi hj
      simp only
      rw [nthQ_map_range _ _ _ hlt, hmod, hdiv]
  · rw [hT]
    have hT2 : Tensor.transpose ⟨(List.range (c * r)).map
        (fun m => nthQ d ((m % r) * c + m / r)), [c, r], buildStrides [c, r]⟩ =
        ⟨(List.range (r * c)).map (fun m =>
          nthQ ((List.range (c * r)).map (fun k => nthQ d ((k % r) * c + k / r)))
            ((m % c) * r + m / c)),
         [r, c], buildStrides [r, c]⟩ := by
      simp [Tensor.transpose, upto_eq_range]
    rw [hT2]
    have hdata : (List.range (r * c)).map (fun m =>
        nthQ ((List.range (c * r)).map (fun k => nthQ d ((k % r) * c + k / r)))
          ((m % c) * r + m / c)) = d := by
      have hcongr : ∀ m ∈ List.range (r * c),
          nthQ ((List.range (c * r)).map (fun k => nthQ d ((k % r) * c + k / r)))
            ((m % c) * r + m / c) = nthQ d m := by
        intro m hm
        rw [List.mem_range] at hm
        have hc : 0 < c := Nat.pos_of_ne_zero (fun h => by subst h; simp at hm)
        have hdiv : m / c < r := by
          rw [Nat.div_lt_iff_lt_mul hc]
          rw [Nat.mul_comm r c] at hm
          exact lt_of_lt_of_le hm (le_of_eq (Nat.mul_comm c r))
        have hmod : m % c < c := Nat.mod_lt _ hc
        obtain ⟨hlt, hm2, hd2⟩ := encdec (m % c) (m / c) c r hmod hdiv
        rw [nthQ_map_range _ _ _ hlt, hm2, hd2]
        congr 1
        rw [Nat.mul_comm (m / c) c]
        exact Nat.div_add_mod m c
      rw [List.map_congr_left hcongr, ← hl, range_map_nthQ]
    rw [hdata]

/-- Witness for C8 at a concrete 2 by 3 tensor. -/
theorem transpose_involution_witness :
    (⟨[1, 2, 3, 4, 5, 6], [2, 3], [2, 1]⟩ : Tensor).transpose.transpose =
      ⟨[1, 2, 3, 4, 5, 6], [2, 3], [2, 1]⟩ :=
  (transpose_involution ⟨[1, 2, 3, 4, 5, 6], [2, 3], [2, 1]⟩ 2 3 rfl (by decide)
    (by decide)).2

theorem okOrder_nil (ops : List VNode) : okOrder ops [] := by
  intro i h
  simp at h

theorem okOrder_closed (ops : List VNode) (l : List Nat) (h : okOrder ops l) :
    ∀ u ∈ l, ∀ j ∈ nodeInputs ops u, j ∈ l := by
  intro u hu j hj
  obtain ⟨⟨i, hi⟩, rfl⟩ := List.mem_iff_get.mp hu
  exact List.take_subset _ _ (h i hi j hj)

theorem closed_reaches (ops : List VNode) (l : List Nat)
    (hc : ∀ u ∈ l, ∀ j ∈ nodeInputs ops u, j ∈ l) :
    ∀ v u, v ∈ l → Reaches ops v u → u ∈ l := by
  intro v u hv hr
  induction hr with
  | refl w => exact hv
  | step w x y hx _ ih => exact ih (hc _ hv _ hx)

theorem okOrder_push (ops : List VNode) (l : List Nat) (v : Nat)
    (h1 : okOrder ops l) (h2 : ∀ j ∈ nodeInputs ops v, j ∈ l) :
    okOrder ops (l ++ [v]) := by
  intro i hi j hj
  rcases Nat.lt_or_ge i l.length with hcase | hcase
  · have hget : (l ++ [v]).get ⟨i, hi⟩ = l.get ⟨i, hcase⟩ := by
      simp only [List.get_eq_getElem]
      exact List.getElem_append_left hcase
    rw [hget] at hj
    have htake : (l ++ [v]).take i = l.take i := by
      rw [List.take_append_eq_append_take, Nat.sub_eq_zero_of_le (le_of_lt hcase),
        List.take_zero, List.append_nil]
    rw [htake]
    exact h1 i hcase j hj
  · have hlen : i = l.length := by
      have := hi
      simp at this
      omega
    subst hlen
    have hget : (l ++ [v]).get ⟨l.length, hi⟩ = v := by
      simp [List.get_eq_getElem]
    rw [hget] at hj
    have htake : (l ++ [v]).take l.length = l := List.take_left l [v]
    rw [htake]
    exact h2 j hj

/-- The invariant of the operand loop inside buildTopo: folding buildTopoAux
over any list of start nodes below a bound (with the pending nodes at or
above the bound) extends topo, preserves nodup-ness and dependency-first
order, keeps the pending set fixed, and gets every start node into topo. -/
theorem btAux_fold (ops : List VNode) (fuel : Nat) (ih : BtSpec ops fuel) :
    ∀ (l : List Nat) (bound : Nat) (vis topo : List Nat),
    (∀ j ∈ l, j < bound) → bound ≤ fuel →
    topo.Nodup → okOrder ops topo → (∀ u ∈ topo, u ∈ vis) →
    (∀ u ∈ vis, u ∉ topo → bound ≤ u) →
    ((∃ t, (l.foldl (buildTopoAux ops fuel) (vis, topo)).2 = topo ++ t) ∧
     (∀ u ∈ vis, u ∈ (l.foldl (buildTopoAux ops fuel) (vis, topo)).1) ∧
     (l.foldl (buildTopoAux ops fuel) (vis, topo)).2.Nodup ∧
     okOrder ops (l.foldl (buildTopoAux ops fuel) (vis, topo)).2 ∧
     (∀ u ∈ (l.foldl (buildTopoAux ops fuel) (vis, topo)).2,
        u ∈ (l.foldl (buildTopoAux ops fuel) (vis, topo)).1) ∧
     (∀ u, (u ∈ (l.foldl (buildTopoAux ops fuel) (vis, topo)).1 ∧
            u ∉ (l.foldl (buildTopoAux ops fuel) (vis, topo)).2) ↔
           (u ∈ vis ∧ u ∉ topo)) ∧
     (∀ j ∈ l, j ∈ (l.foldl (buildTopoAux ops fuel) (vis, topo)).2)) := by
  intro l
  induction l with
  | nil =>
    intro bound vis topo hl hb hnd hok htv hgray
    refine ⟨⟨[], by simp⟩, by simp, hnd, hok, htv, by simp, by simp⟩
  | cons j rest ihl =>
    intro bound vis topo hl hb hnd hok htv hgray
    have hj : j < bound := hl j (List.mem_cons_self j rest)
    obtain ⟨⟨t1, hext1⟩, hvm1, hnd1, hok1, htv1, hgray1, hj1⟩ :=
      ih j vis topo (lt_of_lt_of_le hj hb) hnd hok htv
        (fun u hu hnu => lt_of_lt_of_le hj (hgray u hu hnu))
    rw [List.foldl_cons]
    set st1 := buildTopoAux ops fuel (vis, topo) j with hst1
    obtain ⟨⟨t2, hext2⟩, hvm2, hnd2, hok2, htv2, hgray2, hall2⟩ :=
      ihl bound st1.1 st1.2 (fun j2 hj2 => hl j2 (List.mem_cons_of_mem j hj2)) hb
        hnd1 hok1 htv1
        (fun u hu hnu => hgray u ((hgray1 u).mp ⟨hu, hnu⟩).1 ((hgray1 u).mp ⟨hu, hnu⟩).2)
    have heta : (st1.1, st1.2) = st1 := rfl
    rw [heta] at hext2 hvm2 hnd2 hok2 htv2 hgray2 hall2
    refine ⟨⟨t1 ++ t2, ?_⟩, ?_, hnd2, hok2, htv2, ?_, ?_⟩
    · rw [hext2, hext1, List.append_assoc]
    · exact fun u hu => hvm2 u (hvm1 u hu)
    · exact fun u => (hgray2 u).trans (hgray1 u)
    · intro j2 hj2
      rcases List.mem_cons.mp hj2 with h | h
      · subst h
        rw [hext2]
        exact List.mem_append_left _ hj1
      · exact hall2 j2 h

/-- Every fuel level of buildTopoAux satisfies its specification: fuel
exceeding the start node is enough on a well-formed (operands strictly
earlier) graph. -/
theorem btAux_spec (ops : List VNode) (hwf : Wf ops) : ∀ fuel, BtSpec ops fuel := by
  intro fuel
  induction fuel with
  | zero =>
    intro v vis topo hv
    exact absurd hv (Nat.not_lt_zero v)
  | succ f ihf =>
    intro v vis topo hv hnd hok htv hgray
    by_cases hmem : v ∈ vis
    · have hres : buildTopoAux ops (f + 1) (vis, topo) v = (vis, topo) := by
        simp [buildTopoAux, hmem]
      rw [hres]
      have hvt : v ∈ topo := by
        by_contra hvn
        exact absurd (hgray v hmem hvn) (lt_irrefl v)
      exact ⟨⟨[], by simp⟩, fun u hu => hu, hnd, hok, htv, fun u => Iff.rfl, hvt⟩
    · have hvnt : v ∉ topo := fun hvt => hmem (htv v hvt)
      have hres : buildTopoAux ops (f + 1) (vis, topo) v =
          (((nodeInputs ops v).foldl (buildTopoAux ops f) (v :: vis, topo)).1,
           ((nodeInputs ops v).foldl (buildTopoAux ops f) (v :: vis, topo)).2 ++ [v]) := by
        simp [buildTopoAux, hmem]
      rw [hres]
      obtain ⟨⟨t2, hext2⟩, hvm2, hnd2, hok2, htv2, hgray2, hall2⟩ :=
        btAux_fold ops f ihf (nodeInputs ops v) v (v :: vis) topo
          (hwf v) (by omega) hnd hok
          (fun u hu => List.mem_cons_of_mem v (htv u hu))
          (fun u hu hnu => by
            rcases List.mem_cons.mp hu with h | h
            · omega
            · exact le_of_lt (hgray u h hnu))
      have hvgray : v ∈ ((nodeInputs ops v).foldl (buildTopoAux ops f) (v :: vis, topo)).1 ∧
          v ∉ ((nodeInputs ops v).foldl (buildTopoAux ops f) (v :: vis, topo)).2 :=
        (hgray2 v).mpr ⟨List.mem_cons_self v vis, hvnt⟩
      refine ⟨⟨t2 ++ [v], ?_⟩, ?_, ?_, ?_, ?_, ?_, ?_⟩
      · simp only
        rw [hext2, List.append_assoc]
      · exact fun u hu => hvm2 u (List.mem_cons_of_mem v hu)
      · simp only
        rw [List.nodup_append]
        refine ⟨hnd2, List.nodup_singleton v, fun a ha hb => ?_⟩
        rw [List.mem_singleton.mp hb] at ha
        exact hvgray.2 ha
      · exact okOrder_push ops _ v hok2 hall2
      · intro u hu
        rcases List.mem_append.mp hu with h | h
        · exact htv2 u h
        · rw [List.mem_singleton.mp h]
          exact hvgray.1
      · intro u
        constructor
        · rintro ⟨hu1, hu2⟩
          simp only [List.mem_append, List.mem_singleton] at hu2
          push_neg at hu2
          have := (hgray2 u).mp ⟨hu1, hu2.1⟩
          rcases List.mem_cons.mp this.1 with h | h
          · exact absurd h hu2.2
          · exact ⟨h, this.2⟩
        · rintro ⟨hu1, hu2⟩
          have hvne : ¬ u = v := fun he => absurd (he ▸ (hgray u hu1 hu2)) (lt_irrefl v)
          have := (hgray2 u).mpr ⟨List.mem_cons_of_mem v hu1, hu2⟩
          refine ⟨this.1, ?_⟩
          simp only [List.mem_append, List.mem_singleton]
          push_neg
          exact ⟨this.2, hvne⟩
      · simp

theorem wfb_to_wf (ops : List VNode) (h : WfB ops = true) : Wf ops := by
  intro v j hj
  by_cases hv : v < ops.length
  · have h2 := List.all_eq_true.mp h v (List.mem_range.mpr hv)
    have h3 := List.all_eq_true.mp h2 j hj
    exact of_decide_eq_true h3
  · have : nodeInputs ops v = [] := by
      unfold nodeInputs
      rw [List.getD_eq_default _ _ (Nat.le_of_not_lt hv)]
      rfl
    rw [this] at hj
    exact absurd hj (List.not_mem_nil j)

/-- Claim C6: on any well-formed graph (operands strictly earlier than their
dependents, which holds by construction), the order built by buildTopo —
used by both backwards and params — is a topological order: every node's
operands occur strictly before it (within the first i positions for the
node at position i), no node appears twice (the visited set keyed on node
identity prevents reprocessing shared sub-expressions), and every node
reachable from the root along operand edges appears. -/
theorem buildTopo_topological_order (ops : List VNode) (hwf : WfB ops = true)
    (root : Nat) :
    (buildTopo ops root).Nodup ∧
    (∀ i (h : i < (buildTopo ops root).length),
      ∀ j ∈ nodeInputs ops ((buildTopo ops root).get ⟨i, h⟩),
        j ∈ (buildTopo ops root).take i) ∧
    root ∈ buildTopo ops root ∧
    (∀ u, Reaches ops root u → u ∈ buildTopo ops root) := by
  obtain ⟨hext, hvm, hnd, hok, htv, hgray, hvin⟩ :=
    btAux_spec ops (wfb_to_wf ops hwf) (root + 1) root [] []
      (Nat.lt_succ_self root) List.nodup_nil (okOrder_nil ops)
      (fun u hu => absurd hu (List.not_mem_nil u))
      (fun u hu => absurd hu (List.not_mem_nil u))
  refine ⟨hnd, hok, hvin, ?_⟩
  exact fun u hr => closed_reaches ops _ (okOrder_closed ops _ hok) root u hvin hr

/-- Witness for C6 on the concrete three-node graph a, a, a*a. -/
theorem buildTopo_topological_order_witness :
    (buildTopo [⟨.Null, [], 0⟩, ⟨.Null, [], 0⟩, ⟨.Multiplication, [0, 1], 0⟩] 2).Nodup :=
  (buildTopo_topological_order
    [⟨.Null, [], 0⟩, ⟨.Null, [], 0⟩, ⟨.Multiplication, [0, 1], 0⟩] (by decide) 2).1

end VSG
